import Mathlib

/-!
Verification of the `reps_scheduler` repository (`src/reps_scheduler/scheduler.py`)
against its natural-language specification.

The Python code is shallowly embedded in Lean:
* Python floats are modelled as exact rationals (`ℚ`); the numeric literals
  `1.13`, `1.10`, `0.6` become `113/100`, `11/10`, `3/5`.
* Python's built-in `round` (banker's rounding, round-half-to-even) is
  modelled by `pyRound`.
* Functions that can raise `ValueError` / `ZeroDivisionError` are modelled a
  second time with an `Except String` result (`schedule_by_shape_checked`,
  `get_progression_checked`); the pure versions compute the non-raising path.
* `math.ceil(math.log r / math.log w)` (with `w > 1`) equals, for `r > 1`,
  the least `n` with `w ^ n ≥ r`; `est_weeks` computes exactly that by
  repeated division (with enough fuel), returning `0` when `r ≤ 1`, which
  matches the empty `range` the Python code produces for a non-positive
  week estimate.
-/

/-- Python's `round` on an exact rational: round half to even. -/
def pyRound (q : ℚ) : ℤ :=
  if q - ⌊q⌋ < 1/2 then ⌊q⌋
  else if 1/2 < q - ⌊q⌋ then ⌊q⌋ + 1
  else if ⌊q⌋ % 2 = 0 then ⌊q⌋ else ⌊q⌋ + 1

theorem pyRound_nonneg {q : ℚ} (h : 0 ≤ q) : 0 ≤ pyRound q := by
  have h0 : (0 : ℤ) ≤ ⌊q⌋ := Int.floor_nonneg.mpr h
  unfold pyRound
  split
  · exact h0
  · split
    · omega
    · split <;> omega

/-- Either `pyRound q` is `⌊q + 1/2⌋` (round half up), or `q` sits exactly on
an even tie and `pyRound q` is one below `⌊q + 1/2⌋`. -/
theorem pyRound_eq_cases (q : ℚ) :
    pyRound q = ⌊q + 1/2⌋ ∨
      (pyRound q = ⌊q⌋ ∧ q - ⌊q⌋ = 1/2 ∧ ⌊q + 1/2⌋ = ⌊q⌋ + 1) := by
  have hfl : (⌊q⌋ : ℚ) ≤ q := Int.floor_le q
  have hfu : q < (⌊q⌋ : ℚ) + 1 := Int.lt_floor_add_one q
  unfold pyRound
  split
  · rename_i h1
    left
    have : ⌊q + 1/2⌋ = ⌊q⌋ :=
      Int.floor_eq_iff.mpr ⟨by linarith, by linarith⟩
    omega
  · rename_i h1
    push_neg at h1
    have hplus : ⌊q + 1/2⌋ = ⌊q⌋ + 1 :=
      Int.floor_eq_iff.mpr ⟨by push_cast; linarith, by push_cast; linarith⟩
    split
    · left; omega
    · rename_i h2
      push_neg at h2
      have hfrac : q - ⌊q⌋ = 1/2 := le_antisymm h2 h1
      split
      · right; exact ⟨rfl, hfrac, hplus⟩
      · left; omega

theorem pyRound_le_floor_add_half (q : ℚ) : pyRound q ≤ ⌊q + 1/2⌋ := by
  rcases pyRound_eq_cases q with h | ⟨h1, _, h3⟩ <;> omega

theorem pyRound_mono {q r : ℚ} (h : q ≤ r) : pyRound q ≤ pyRound r := by
  rcases eq_or_lt_of_le h with rfl | hlt
  · exact le_refl _
  have hq : pyRound q ≤ ⌊q + 1/2⌋ := pyRound_le_floor_add_half q
  have hqr : ⌊q + 1/2⌋ ≤ ⌊r + 1/2⌋ := Int.floor_le_floor (by linarith)
  rcases pyRound_eq_cases r with hr | ⟨hr1, hr2, hr3⟩
  · omega
  · -- `r` is an even tie: `pyRound r = ⌊r⌋` and `r + 1/2 = ⌊r⌋ + 1`
    have hq2 : q + 1/2 < ((⌊r⌋ + 1 : ℤ) : ℚ) := by push_cast; linarith
    have : ⌊q + 1/2⌋ < ⌊r⌋ + 1 := Int.floor_lt.mpr hq2
    omega

theorem pyRound_intCast (n : ℤ) : pyRound (n : ℚ) = n := by
  unfold pyRound
  rw [Int.floor_intCast]
  simp

/-- Shape function `peak_in_middle_function` from `scheduler.py` lines 12-24:
`f(x) = 2x-2` for `x ≤ 2`, else `6-2x`. -/
def peak_in_middle_function (x : ℚ) : ℚ :=
  if x ≤ 2 then 2 * x - 2 else 6 - 2 * x

/-- Shape function `peak_toward_front_function` from `scheduler.py` lines 27-39:
`f(x) = 2x` for `x ≤ 2`, else `12-4x`. -/
def peak_toward_front_function (x : ℚ) : ℚ :=
  if x ≤ 2 then 2 * x else 12 - 4 * x

/-- Shape function `front_load_function` from `scheduler.py` lines 42-54:
`f(x) = 8-x` for `x < 1`, else `4-2x`. -/
def front_load_function (x : ℚ) : ℚ :=
  if x < 1 then 8 - x else 4 - 2 * x

/-- `DISTRO_SHAPE_FUNCTIONS` from `scheduler.py` lines 57-61. -/
def DISTRO_SHAPE_FUNCTIONS : List (ℚ → ℚ) :=
  [peak_in_middle_function, peak_toward_front_function, front_load_function]

/-- On the sampling domain `[0,4]`, each built-in shape attains its minimum at
`x = 4` and stays above `-20`. -/
theorem shape_bounds {shape : ℚ → ℚ} (hs : shape ∈ DISTRO_SHAPE_FUNCTIONS)
    {x : ℚ} (h0 : 0 ≤ x) (h4 : x ≤ 4) :
    shape 4 ≤ shape x ∧ -20 ≤ shape x := by
  simp only [DISTRO_SHAPE_FUNCTIONS, List.mem_cons, List.not_mem_nil, or_false] at hs
  rcases hs with rfl | rfl | rfl
  · unfold peak_in_middle_function
    split <;> [skip; skip] <;> norm_num <;> split <;> constructor <;> linarith
  · unfold peak_toward_front_function
    split <;> [skip; skip] <;> norm_num <;> split <;> constructor <;> linarith
  · unfold front_load_function
    split <;> [skip; skip] <;> norm_num <;> split <;> constructor <;> linarith

/-- Python's `max` on a non-empty list folds with binary `max`; `listMax`
models `max(day)` (default `0` is never used on the non-empty lists involved). -/
def listMax (l : List ℤ) : ℤ := l.max?.getD 0

/-- Python's `min` on a non-empty list; models `min(counts)`. -/
def listMin (l : List ℤ) : ℤ := l.min?.getD 0

/-- `argmax` from `scheduler.py` lines 64-67: `values.index(max(values))`,
the first index of the maximum value. -/
def argmax (values : List ℤ) : ℕ := values.indexOf (listMax values)

/-- In-place `sets[i] += v`, as a functional list update. -/
def add_to_index (l : List ℤ) (i : ℕ) (v : ℤ) : List ℤ :=
  l.set i (l.getD i 0 + v)

theorem foldl_max_mem (x : ℤ) (xs : List ℤ) : xs.foldl max x ∈ x :: xs := by
  induction xs generalizing x with
  | nil => simp
  | cons y ys ih =>
    simp only [List.foldl_cons]
    rcases List.mem_cons.mp (ih (max x y)) with h1 | h1
    · rw [h1]
      rcases max_choice x y with hm | hm <;> rw [hm] <;> simp
    · simp only [List.mem_cons]
      exact Or.inr (Or.inr h1)

theorem le_foldl_max (x : ℤ) (xs : List ℤ) : ∀ a ∈ x :: xs, a ≤ xs.foldl max x := by
  induction xs generalizing x with
  | nil =>
    intro a ha
    simp only [List.mem_cons, List.not_mem_nil, or_false] at ha
    simp [ha]
  | cons y ys ih =>
    intro a ha
    simp only [List.foldl_cons]
    rcases List.mem_cons.mp ha with rfl | ha2
    · exact le_trans (le_max_left a y) (ih (max a y) (max a y) (List.mem_cons_self _ _))
    · rcases List.mem_cons.mp ha2 with rfl | ha3
      · exact le_trans (le_max_right x a) (ih (max x a) (max x a) (List.mem_cons_self _ _))
      · exact ih (max x y) a (List.mem_cons_of_mem _ ha3)

theorem foldl_min_mem (x : ℤ) (xs : List ℤ) : xs.foldl min x ∈ x :: xs := by
  induction xs generalizing x with
  | nil => simp
  | cons y ys ih =>
    simp only [List.foldl_cons]
    rcases List.mem_cons.mp (ih (min x y)) with h1 | h1
    · rw [h1]
      rcases min_choice x y with hm | hm <;> rw [hm] <;> simp
    · simp only [List.mem_cons]
      exact Or.inr (Or.inr h1)

theorem foldl_min_le (x : ℤ) (xs : List ℤ) : ∀ a ∈ x :: xs, xs.foldl min x ≤ a := by
  induction xs generalizing x with
  | nil =>
    intro a ha
    simp only [List.mem_cons, List.not_mem_nil, or_false] at ha
    simp [ha]
  | cons y ys ih =>
    intro a ha
    simp only [List.foldl_cons]
    rcases List.mem_cons.mp ha with rfl | ha2
    · exact le_trans (ih (min a y) (min a y) (List.mem_cons_self _ _)) (min_le_left a y)
    · rcases List.mem_cons.mp ha2 with rfl | ha3
      · exact le_trans (ih (min x a) (min x a) (List.mem_cons_self _ _)) (min_le_right x a)
      · exact ih (min x y) a (List.mem_cons_of_mem _ ha3)

theorem listMax_cons (x : ℤ) (xs : List ℤ) : listMax (x :: xs) = xs.foldl max x := rfl

theorem listMin_cons (x : ℤ) (xs : List ℤ) : listMin (x :: xs) = xs.foldl min x := rfl

theorem listMax_mem {l : List ℤ} (h : l ≠ []) : listMax l ∈ l := by
  cases l with
  | nil => exact absurd rfl h
  | cons x xs => rw [listMax_cons]; exact foldl_max_mem x xs

theorem le_listMax {l : List ℤ} {a : ℤ} (h : a ∈ l) : a ≤ listMax l := by
  cases l with
  | nil => simp at h
  | cons x xs => rw [listMax_cons]; exact le_foldl_max x xs a h

theorem listMin_mem {l : List ℤ} (h : l ≠ []) : listMin l ∈ l := by
  cases l with
  | nil => exact absurd rfl h
  | cons x xs => rw [listMin_cons]; exact foldl_min_mem x xs

theorem listMin_le {l : List ℤ} {a : ℤ} (h : a ∈ l) : listMin l ≤ a := by
  cases l with
  | nil => simp at h
  | cons x xs => rw [listMin_cons]; exact foldl_min_le x xs a h

theorem listMin_eq_of {l : List ℤ} {a : ℤ} (ha : a ∈ l) (hall : ∀ b ∈ l, a ≤ b) :
    listMin l = a :=
  le_antisymm (listMin_le ha) (hall _ (listMin_mem (List.ne_nil_of_mem ha)))

theorem argmax_lt_length {l : List ℤ} (h : l ≠ []) : argmax l < l.length :=
  List.indexOf_lt_length.mpr (listMax_mem h)

theorem getD_eq_getElem' {l : List ℤ} {i : ℕ} (h : i < l.length) : l.getD i 0 = l[i] := by
  rw [List.getD_eq_getElem?_getD, List.getElem?_eq_getElem h, Option.getD_some]

theorem getD_argmax {l : List ℤ} (h : l ≠ []) : l.getD (argmax l) 0 = listMax l := by
  have hlt : argmax l < l.length := argmax_lt_length h
  rw [getD_eq_getElem' hlt]
  exact List.getElem_indexOf hlt

theorem argmax_cons_of_head {x : ℤ} {xs : List ℤ} (h : listMax (x :: xs) = x) :
    argmax (x :: xs) = 0 := by
  unfold argmax
  rw [h]
  exact List.indexOf_cons_self x xs

theorem getD_mem {l : List ℤ} {i : ℕ} (h : i < l.length) : l.getD i 0 ∈ l := by
  rw [getD_eq_getElem' h]
  exact List.getElem_mem h

theorem getLastD_eq_getD (l : List ℤ) : l.getLastD 0 = l.getD (l.length - 1) 0 := by
  rw [List.getLastD_eq_getLast?, List.getLast?_eq_getElem?, ← List.getD_eq_getElem?_getD]

theorem getD_map_range (f : ℕ → ℤ) {N i : ℕ} (h : i < N) :
    ((List.range N).map f).getD i 0 = f i := by
  rw [List.getD_eq_getElem?_getD, List.getElem?_map, List.getElem?_range h, Option.map_some',
    Option.getD_some]

theorem add_to_index_length (l : List ℤ) (i : ℕ) (v : ℤ) :
    (add_to_index l i v).length = l.length := by
  simp [add_to_index]

theorem add_to_index_sum (l : List ℤ) (i : ℕ) (v : ℤ) (h : i < l.length) :
    (add_to_index l i v).sum = l.sum + v := by
  induction l generalizing i with
  | nil => simp at h
  | cons x xs ih =>
    cases i with
    | zero => simp [add_to_index]; ring
    | succ j =>
      have hj : j < xs.length := by simpa using h
      simp only [add_to_index, List.getD_cons_succ, List.set_cons_succ, List.sum_cons]
      have := ih j hj
      simp only [add_to_index] at this
      omega

theorem add_to_index_getD_self (l : List ℤ) (i : ℕ) (v : ℤ) (h : i < l.length) :
    (add_to_index l i v).getD i 0 = l.getD i 0 + v := by
  induction l generalizing i with
  | nil => simp at h
  | cons x xs ih =>
    cases i with
    | zero => simp [add_to_index]
    | succ j =>
      have hj : j < xs.length := by simpa using h
      simp only [add_to_index, List.getD_cons_succ, List.set_cons_succ]
      have := ih j hj
      simpa [add_to_index] using this

theorem add_to_index_getD_ne (l : List ℤ) (i j : ℕ) (v : ℤ) (hne : j ≠ i) :
    (add_to_index l i v).getD j 0 = l.getD j 0 := by
  induction l generalizing i j with
  | nil => simp [add_to_index]
  | cons x xs ih =>
    cases i with
    | zero =>
      cases j with
      | zero => exact absurd rfl hne
      | succ m => simp [add_to_index]
    | succ k =>
      cases j with
      | zero => simp [add_to_index]
      | succ m =>
        simp only [add_to_index, List.getD_cons_succ, List.set_cons_succ]
        have := ih k m (by omega)
        simpa [add_to_index] using this

/-- Raw per-set counts of `schedule_by_shape` before rounding-error correction,
`scheduler.py` lines 88-94: sample the shape at `num_set` points
`x_i = i*4/(num_set-1)` over `[0,4]`, scale by `set_average/20`, add
`set_average = total/num_set`, and round each value. -/
def shape_sets (distro_shape : ℚ → ℚ) (num_set : ℤ) (total : ℤ) : List ℤ :=
  let set_average : ℚ := (total : ℚ) / (num_set : ℚ)
  let diff_scale : ℚ := set_average / 20
  (List.range num_set.toNat).map
    (fun i : ℕ =>
      pyRound (diff_scale * distro_shape ((i : ℚ) * 4 / ((num_set : ℚ) - 1)) + set_average))

/-- One raw entry of `shape_sets`; `shape_sets shape n t` is
`(List.range n.toNat).map (shape_entry shape n t)`. -/
def shape_entry (distro_shape : ℚ → ℚ) (num_set : ℤ) (total : ℤ) (i : ℕ) : ℤ :=
  pyRound ((total : ℚ) / (num_set : ℚ) / 20 * distro_shape ((i : ℚ) * 4 / ((num_set : ℚ) - 1))
    + (total : ℚ) / (num_set : ℚ))

/-- `schedule_by_shape` from `scheduler.py` lines 70-103, successful path
(input validation is modelled in `schedule_by_shape_checked`): `num_set == 1`
returns `[total]`; otherwise the raw rounded counts are corrected for rounding
error, subtracting a negative error from the last set and adding a
non-negative error to the first maximal set. -/
def schedule_by_shape (distro_shape : ℚ → ℚ) (num_set : ℤ) (total : ℤ) : List ℤ :=
  if num_set = 1 then [total]
  else
    let sets := shape_sets distro_shape num_set total
    let rounding_error := total - sets.sum
    if rounding_error < 0 then add_to_index sets (sets.length - 1) rounding_error
    else add_to_index sets (argmax sets) rounding_error

/-- `schedule_by_shape` with the `ValueError` checks of `scheduler.py`
lines 77-82: rejects `num_set ≤ 0`, `total < 0`, and non-integer inputs
(a rational is a Python `int` iff its denominator is 1). -/
def schedule_by_shape_checked (distro_shape : ℚ → ℚ) (num_set : ℚ) (total : ℚ) :
    Except String (List ℤ) :=
  if num_set ≤ 0 ∨ total < 0 then
    Except.error "requires at least one set and a non-negative number of total reps"
  else if num_set.den ≠ 1 ∨ total.den ≠ 1 then
    Except.error "requires integer inputs for number of sets and total reps"
  else Except.ok (schedule_by_shape distro_shape num_set.num total.num)

theorem shape_sets_eq (distro_shape : ℚ → ℚ) (num_set total : ℤ) :
    shape_sets distro_shape num_set total
      = (List.range num_set.toNat).map (shape_entry distro_shape num_set total) := by
  unfold shape_sets shape_entry
  rfl

theorem shape_sets_length (distro_shape : ℚ → ℚ) (num_set total : ℤ) :
    (shape_sets distro_shape num_set total).length = num_set.toNat := by
  rw [shape_sets_eq, List.length_map, List.length_range]

theorem schedule_eq_of_ne_one (distro_shape : ℚ → ℚ) (num_set total : ℤ) (h : num_set ≠ 1) :
    schedule_by_shape distro_shape num_set total
      = (if total - (shape_sets distro_shape num_set total).sum < 0 then
          add_to_index (shape_sets distro_shape num_set total)
            ((shape_sets distro_shape num_set total).length - 1)
            (total - (shape_sets distro_shape num_set total).sum)
        else
          add_to_index (shape_sets distro_shape num_set total)
            (argmax (shape_sets distro_shape num_set total))
            (total - (shape_sets distro_shape num_set total).sum)) := by
  simp only [schedule_by_shape, if_neg h]

theorem schedule_by_shape_one (distro_shape : ℚ → ℚ) (total : ℤ) :
    schedule_by_shape distro_shape 1 total = [total] := by
  simp [schedule_by_shape]

theorem schedule_by_shape_sum (distro_shape : ℚ → ℚ) (num_set total : ℤ) (hn : 0 < num_set) :
    (schedule_by_shape distro_shape num_set total).sum = total := by
  by_cases h1 : num_set = 1
  · subst h1; simp [schedule_by_shape_one]
  · have h2 : 2 ≤ num_set := by omega
    have hlen : (shape_sets distro_shape num_set total).length = num_set.toNat :=
      shape_sets_length _ _ _
    have hpos : 0 < (shape_sets distro_shape num_set total).length := by
      rw [hlen]; omega
    have hne : shape_sets distro_shape num_set total ≠ [] := List.ne_nil_of_length_pos hpos
    rw [schedule_eq_of_ne_one _ _ _ h1]
    split
    · rw [add_to_index_sum _ _ _ (by omega)]
      ring
    · rw [add_to_index_sum _ _ _ (argmax_lt_length hne)]
      ring

theorem schedule_by_shape_length (distro_shape : ℚ → ℚ) (num_set total : ℤ)
    (hn : 0 < num_set) :
    (schedule_by_shape distro_shape num_set total).length = num_set.toNat := by
  by_cases h1 : num_set = 1
  · subst h1; simp [schedule_by_shape_one]
  · rw [schedule_eq_of_ne_one _ _ _ h1]
    split <;> rw [add_to_index_length, shape_sets_length]

theorem sample_nonneg (num_set : ℤ) (h2 : 2 ≤ num_set) (i : ℕ) :
    0 ≤ (i : ℚ) * 4 / ((num_set : ℚ) - 1) := by
  have hn1 : (0 : ℚ) < (num_set : ℚ) - 1 := by
    have : (2 : ℚ) ≤ (num_set : ℚ) := by exact_mod_cast h2
    linarith
  have : (0 : ℚ) ≤ (i : ℚ) * 4 := by positivity
  exact div_nonneg this (le_of_lt hn1)

theorem sample_le_four (num_set : ℤ) (h2 : 2 ≤ num_set) (i : ℕ) (hi : i < num_set.toNat) :
    (i : ℚ) * 4 / ((num_set : ℚ) - 1) ≤ 4 := by
  have hn1 : (0 : ℚ) < (num_set : ℚ) - 1 := by
    have : (2 : ℚ) ≤ (num_set : ℚ) := by exact_mod_cast h2
    linarith
  rw [div_le_iff₀ hn1]
  have hiz : (i : ℤ) ≤ num_set - 1 := by omega
  have hiq : (i : ℚ) ≤ (num_set : ℚ) - 1 := by exact_mod_cast hiz
  linarith

theorem sample_last_eq_four (num_set : ℤ) (h2 : 2 ≤ num_set) :
    ((num_set.toNat - 1 : ℕ) : ℚ) * 4 / ((num_set : ℚ) - 1) = 4 := by
  have h1 : 1 ≤ num_set.toNat := by omega
  have hcast : ((num_set.toNat - 1 : ℕ) : ℚ) = (num_set : ℚ) - 1 := by
    rw [Nat.cast_sub h1]
    congr 1
    rw [← Int.cast_natCast]
    congr 1
    omega
  have hne : (num_set : ℚ) - 1 ≠ 0 := by
    have : (2 : ℚ) ≤ (num_set : ℚ) := by exact_mod_cast h2
    intro hzero
    rw [sub_eq_zero] at hzero
    rw [hzero] at this
    norm_num at this
  rw [hcast, mul_comm, mul_div_assoc, div_self hne, mul_one]

theorem set_average_nonneg (num_set total : ℤ) (h2 : 2 ≤ num_set) (ht : 0 ≤ total) :
    0 ≤ (total : ℚ) / (num_set : ℚ) := by
  apply div_nonneg
  · exact_mod_cast ht
  · have : (2 : ℚ) ≤ (num_set : ℚ) := by exact_mod_cast h2
    linarith

theorem shape_entry_nonneg {distro_shape : ℚ → ℚ} (hs : distro_shape ∈ DISTRO_SHAPE_FUNCTIONS)
    (num_set total : ℤ) (h2 : 2 ≤ num_set) (ht : 0 ≤ total) (i : ℕ) (hi : i < num_set.toNat) :
    0 ≤ shape_entry distro_shape num_set total i := by
  apply pyRound_nonneg
  have havg : 0 ≤ (total : ℚ) / (num_set : ℚ) := set_average_nonneg _ _ h2 ht
  have hb := (shape_bounds hs (sample_nonneg num_set h2 i) (sample_le_four num_set h2 i hi)).2
  have hscale : 0 ≤ (total : ℚ) / (num_set : ℚ) / 20 := by positivity
  have := mul_le_mul_of_nonneg_left hb hscale
  nlinarith

theorem shape_entry_last_le {distro_shape : ℚ → ℚ} (hs : distro_shape ∈ DISTRO_SHAPE_FUNCTIONS)
    (num_set total : ℤ) (h2 : 2 ≤ num_set) (ht : 0 ≤ total) (i : ℕ) (hi : i < num_set.toNat) :
    shape_entry distro_shape num_set total (num_set.toNat - 1)
      ≤ shape_entry distro_shape num_set total i := by
  unfold shape_entry
  apply pyRound_mono
  rw [sample_last_eq_four num_set h2]
  have havg : 0 ≤ (total : ℚ) / (num_set : ℚ) := set_average_nonneg _ _ h2 ht
  have hscale : 0 ≤ (total : ℚ) / (num_set : ℚ) / 20 := by positivity
  have hb := (shape_bounds hs (sample_nonneg num_set h2 i) (sample_le_four num_set h2 i hi)).1
  have := mul_le_mul_of_nonneg_left hb hscale
  linarith

/-- After the rounding-error correction, the last entry of a
`schedule_by_shape` result is still less than or equal to every entry. -/
theorem schedule_last_le {distro_shape : ℚ → ℚ} (hs : distro_shape ∈ DISTRO_SHAPE_FUNCTIONS)
    (num_set total : ℤ) (h2 : 2 ≤ num_set) (ht : 0 ≤ total) (j : ℕ)
    (hj : j < (schedule_by_shape distro_shape num_set total).length) :
    (schedule_by_shape distro_shape num_set total).getD
        ((schedule_by_shape distro_shape num_set total).length - 1) 0
      ≤ (schedule_by_shape distro_shape num_set total).getD j 0 := by
  have h1 : num_set ≠ 1 := by omega
  set sets := shape_sets distro_shape num_set total with hsets
  have hlen : sets.length = num_set.toNat := shape_sets_length _ _ _
  have hN2 : 2 ≤ num_set.toNat := by omega
  have hne : sets ≠ [] := List.ne_nil_of_length_pos (by omega)
  have hgetD : ∀ k, k < num_set.toNat → sets.getD k 0 = shape_entry distro_shape num_set total k := by
    intro k hk
    rw [hsets, shape_sets_eq]
    exact getD_map_range _ hk
  have hlast_le : ∀ k, k < num_set.toNat →
      sets.getD (num_set.toNat - 1) 0 ≤ sets.getD k 0 := by
    intro k hk
    rw [hgetD _ (by omega), hgetD _ hk]
    exact shape_entry_last_le hs num_set total h2 ht k hk
  have hlen' : (schedule_by_shape distro_shape num_set total).length = num_set.toNat :=
    schedule_by_shape_length _ _ _ (by omega)
  rw [hlen'] at hj
  rw [schedule_eq_of_ne_one _ _ _ h1]
  rw [← hsets]
  split
  · -- over-allocated: the last entry shrinks
    rename_i herr
    rw [add_to_index_length, hlen]
    by_cases hjlast : j = num_set.toNat - 1
    · subst hjlast
      exact le_refl _
    · rw [add_to_index_getD_self _ _ _ (by omega),
        add_to_index_getD_ne _ _ _ _ (by omega)]
      have := hlast_le j hj
      omega
  · -- under-allocated: the first maximal entry grows, and it is not the last
    rename_i herr
    push_neg at herr
    rw [add_to_index_length, hlen]
    have hmaxmem : listMax sets ∈ sets := listMax_mem hne
    have hargD : sets.getD (argmax sets) 0 = listMax sets := getD_argmax hne
    have harglt : argmax sets < num_set.toNat := by
      have := argmax_lt_length hne
      omega
    have hargne : argmax sets ≠ num_set.toNat - 1 := by
      intro hcon
      -- then the last raw entry is the maximum, so all raw entries are equal
      -- to it, in particular the head; but `argmax` is the first such index.
      have hlastmax : sets.getD (num_set.toNat - 1) 0 = listMax sets := by
        rw [← hcon]; exact hargD
      have hheadmax : sets.getD 0 0 = listMax sets := by
        have hle : sets.getD 0 0 ≤ listMax sets := le_listMax (getD_mem (by omega))
        have hge : sets.getD (num_set.toNat - 1) 0 ≤ sets.getD 0 0 := hlast_le 0 (by omega)
        omega
      obtain ⟨x, xs, hxxs⟩ := List.exists_cons_of_ne_nil hne
      have hhead : sets.getD 0 0 = x := by rw [hxxs]; rfl
      have hzero : argmax sets = 0 := by
        rw [hxxs]
        apply argmax_cons_of_head
        rw [← hxxs, ← hheadmax, hhead]
      omega
    by_cases hjarg : j = argmax sets
    · subst hjarg
      rw [add_to_index_getD_ne _ _ _ _ (by omega),
        add_to_index_getD_self _ _ _ (by omega)]
      have := hlast_le (argmax sets) hj
      omega
    · rw [add_to_index_getD_ne _ _ _ _ (by omega),
        add_to_index_getD_ne _ _ _ _ (by omega)]
      exact hlast_le j hj

/-- Entry-wise sign analysis of `schedule_by_shape` for `num_set ≥ 2`: every
entry other than the last is non-negative, and when the rounding error is
non-negative every entry (including the last) is non-negative. -/
theorem schedule_getD_nonneg {distro_shape : ℚ → ℚ} (hs : distro_shape ∈ DISTRO_SHAPE_FUNCTIONS)
    (num_set total : ℤ) (h2 : 2 ≤ num_set) (ht : 0 ≤ total) :
    (∀ i, i + 1 < num_set.toNat → 0 ≤ (schedule_by_shape distro_shape num_set total).getD i 0)
    ∧ (0 ≤ total - (shape_sets distro_shape num_set total).sum →
        ∀ i, i < num_set.toNat → 0 ≤ (schedule_by_shape distro_shape num_set total).getD i 0) := by
  have h1 : num_set ≠ 1 := by omega
  set sets := shape_sets distro_shape num_set total with hsets
  have hlen : sets.length = num_set.toNat := shape_sets_length _ _ _
  have hN2 : 2 ≤ num_set.toNat := by omega
  have hne : sets ≠ [] := List.ne_nil_of_length_pos (by omega)
  have hgetD : ∀ k, k < num_set.toNat → sets.getD k 0 = shape_entry distro_shape num_set total k := by
    intro k hk
    rw [hsets, shape_sets_eq]
    exact getD_map_range _ hk
  have hnn : ∀ k, k < num_set.toNat → 0 ≤ sets.getD k 0 := by
    intro k hk
    rw [hgetD k hk]
    exact shape_entry_nonneg hs num_set total h2 ht k hk
  rw [schedule_eq_of_ne_one _ _ _ h1, ← hsets]
  constructor
  · intro i hi
    split
    · rename_i herr
      rw [hlen, add_to_index_getD_ne _ _ _ _ (by omega)]
      exact hnn i (by omega)
    · rename_i herr
      push_neg at herr
      by_cases hiarg : i = argmax sets
      · subst hiarg
        rw [add_to_index_getD_self _ _ _ (by omega)]
        have := hnn (argmax sets) (by have := argmax_lt_length hne; omega)
        omega
      · rw [add_to_index_getD_ne _ _ _ _ (by omega)]
        exact hnn i (by omega)
  · intro herr2 i hi
    split
    · rename_i herr
      omega
    · rename_i herr
      by_cases hiarg : i = argmax sets
      · subst hiarg
        rw [add_to_index_getD_self _ _ _ (by omega)]
        have := hnn (argmax sets) (by have := argmax_lt_length hne; omega)
        omega
      · rw [add_to_index_getD_ne _ _ _ _ (by omega)]
        exact hnn i (by omega)

/-- `day1_schedule` from `scheduler.py` lines 106-108. -/
def day1_schedule (num_set total : ℤ) : List ℤ :=
  schedule_by_shape peak_in_middle_function num_set total

/-- `day2_schedule` from `scheduler.py` lines 111-113. -/
def day2_schedule (num_set total : ℤ) : List ℤ :=
  schedule_by_shape peak_toward_front_function num_set total

/-- `day3_schedule` from `scheduler.py` lines 116-118. -/
def day3_schedule (num_set total : ℤ) : List ℤ :=
  schedule_by_shape front_load_function num_set total

/-- `DAY_SCHEDULES` from `scheduler.py` line 121. -/
def DAY_SCHEDULES : List (ℤ → ℤ → List ℤ) := [day1_schedule, day2_schedule, day3_schedule]

/-- `N_SETS = 5` from `scheduler.py` line 122. -/
def N_SETS : ℤ := 5

/-- `RATIO_OF_MAX_FOR_N_SETS = 0.6` from `scheduler.py` line 123. -/
def RATIO_OF_MAX_FOR_N_SETS : ℚ := 3/5

/-- `DAY_INCREASES = [1.13, 1.10, 1.10]` from `scheduler.py` line 124. -/
def DAY_INCREASES : List ℚ := [113/100, 11/10, 11/10]

/-- `DAYS_PER_WEEK = len(DAY_INCREASES)` from `scheduler.py` line 125. -/
def DAYS_PER_WEEK : ℕ := DAY_INCREASES.length

/-- `WEEKLY_INCREASE = math.prod(DAY_INCREASES)` from `scheduler.py` line 126. -/
def WEEKLY_INCREASE : ℚ := DAY_INCREASES.prod

/-- Model of `more_itertools.take n (itertools.cycle orig)` with current
suffix `rem`: take `n` elements, restarting from `orig` when `rem` runs out. -/
def takeCycleAux : ℕ → List ℚ → List ℚ → List ℚ
  | 0, _, _ => []
  | n + 1, x :: xs, orig => x :: takeCycleAux n xs orig
  | n + 1, [], orig =>
    match orig with
    | [] => []
    | x :: xs => x :: takeCycleAux n xs orig

/-- `get_total_increase_after_days` from `scheduler.py` lines 129-135:
the product of the first `num_days` elements of `cycle(DAY_INCREASES)`. -/
def get_total_increase_after_days (num_days : ℕ) : ℚ :=
  (takeCycleAux num_days DAY_INCREASES DAY_INCREASES).prod

/-- Fuelled computation of the least `n` with `r / WEEKLY_INCREASE ^ n ≤ 1`. -/
def estWeeksAux : ℕ → ℚ → ℕ
  | 0, _ => 0
  | fuel + 1, r => if r ≤ 1 then 0 else estWeeksAux fuel (r / WEEKLY_INCREASE) + 1

/-- Model of `est_weeks = math.ceil(math.log(r) / math.log(WEEKLY_INCREASE))`
from `scheduler.py` line 149: for `r > 1` this is the least `n` with
`WEEKLY_INCREASE ^ n ≥ r`, computed by repeated division (the fuel
`3 * ⌈r⌉ + 3` is enough since `WEEKLY_INCREASE > 4/3`); for `0 < r ≤ 1` the
real ceiling is `≤ 0` and the day range `range(3 * est_weeks)` it feeds is
empty, matching the value `0` here. -/
def est_weeks (r : ℚ) : ℕ := estWeeksAux (3 * (⌈r⌉).toNat + 3) r

/-- One generated day of `get_progression` (`scheduler.py` lines 152-157):
day `day` uses shape `DAY_SCHEDULES[day % DAYS_PER_WEEK]`, `N_SETS` sets and
total `round(get_total_increase_after_days(day) * starting_total)`. -/
def progression_day (starting_total : ℤ) (day : ℕ) : List ℤ :=
  (DAY_SCHEDULES.getD (day % DAYS_PER_WEEK) day1_schedule) N_SETS
    (pyRound (get_total_increase_after_days day * (starting_total : ℚ)))

/-- `get_progression` from `scheduler.py` lines 138-160, successful path:
generate `DAYS_PER_WEEK * est_weeks` candidate days, keep them while their
maximum set count stays below the goal, and append the goal day
`[single_set_goal]`. -/
def get_progression (starting_max : ℚ) (single_set_goal : ℤ) : List (List ℤ) :=
  let starting_average := RATIO_OF_MAX_FOR_N_SETS * starting_max
  let est_required_inc := (single_set_goal : ℚ) / starting_average
  let starting_total := pyRound (starting_average * (N_SETS : ℚ))
  let schedule := (List.range (DAYS_PER_WEEK * est_weeks est_required_inc)).map
    (progression_day starting_total)
  (schedule.takeWhile fun day => decide (listMax day < single_set_goal)) ++ [[single_set_goal]]

/-- One generated day with the `ValueError` checks of `schedule_by_shape`. -/
def progression_day_checked (starting_total : ℤ) (day : ℕ) : Except String (List ℤ) :=
  schedule_by_shape_checked
    (DISTRO_SHAPE_FUNCTIONS.getD (day % DAYS_PER_WEEK) peak_in_middle_function)
    ((N_SETS : ℚ))
    ((pyRound (get_total_increase_after_days day * (starting_total : ℚ)) : ℤ) : ℚ)

/-- Lazy evaluation of `list(takewhile(...))` over the day generator: days are
produced one at a time, an exception in a day aborts the whole call, and
production stops at the first day whose maximum reaches the goal. -/
def buildDaysE (single_set_goal : ℤ) (starting_total : ℤ) :
    List ℕ → Except String (List (List ℤ))
  | [] => Except.ok []
  | d :: ds =>
    match progression_day_checked starting_total d with
    | Except.error e => Except.error e
    | Except.ok day =>
      if listMax day < single_set_goal then
        (buildDaysE single_set_goal starting_total ds).map (fun rest => day :: rest)
      else Except.ok []

/-- `get_progression` with the exceptions the Python code can raise:
`ZeroDivisionError` when `starting_average == 0`, `math.log`'s domain error
when `est_required_inc ≤ 0`, and any `ValueError` raised by a generated day
(evaluated lazily through `takewhile`). -/
def get_progression_checked (starting_max : ℚ) (single_set_goal : ℤ) :
    Except String (List (List ℤ)) :=
  let starting_average := RATIO_OF_MAX_FOR_N_SETS * starting_max
  if starting_average = 0 then Except.error "float division by zero"
  else
    let est_required_inc := (single_set_goal : ℚ) / starting_average
    if est_required_inc ≤ 0 then Except.error "math domain error"
    else
      (buildDaysE single_set_goal (pyRound (starting_average * (N_SETS : ℚ)))
        (List.range (DAYS_PER_WEEK * est_weeks est_required_inc))).map
        (fun days => days ++ [[single_set_goal]])

theorem takeCycleAux_empty (n : ℕ) :
    takeCycleAux n [] DAY_INCREASES = takeCycleAux n DAY_INCREASES DAY_INCREASES := by
  cases n with
  | zero => rfl
  | succ m => rfl

theorem takeCycleAux_spec (n : ℕ) : ∀ k : ℕ, k < 3 →
    takeCycleAux n (DAY_INCREASES.drop k) DAY_INCREASES
      = (List.range n).map (fun i => DAY_INCREASES.getD ((k + i) % 3) 1) := by
  induction n with
  | zero => intro k _; rfl
  | succ m ih =>
    intro k hk
    interval_cases k
    · have ih1 := ih 1 (by omega)
      calc takeCycleAux (m + 1) (DAY_INCREASES.drop 0) DAY_INCREASES
          = (113/100 : ℚ) :: takeCycleAux m (DAY_INCREASES.drop 1) DAY_INCREASES := rfl
        _ = (113/100 : ℚ) :: (List.range m).map (fun i => DAY_INCREASES.getD ((1 + i) % 3) 1) := by
            rw [ih1]
        _ = (List.range (m + 1)).map (fun i => DAY_INCREASES.getD ((0 + i) % 3) 1) := by
            rw [List.range_succ_eq_map, List.map_cons, List.map_map]
            refine congrArg₂ _ (by norm_num [DAY_INCREASES]) ?_
            refine List.map_congr_left ?_
            intro i _
            simp only [Function.comp]
            congr 1
            omega
    · have ih2 := ih 2 (by omega)
      calc takeCycleAux (m + 1) (DAY_INCREASES.drop 1) DAY_INCREASES
          = (11/10 : ℚ) :: takeCycleAux m (DAY_INCREASES.drop 2) DAY_INCREASES := rfl
        _ = (11/10 : ℚ) :: (List.range m).map (fun i => DAY_INCREASES.getD ((2 + i) % 3) 1) := by
            rw [ih2]
        _ = (List.range (m + 1)).map (fun i => DAY_INCREASES.getD ((1 + i) % 3) 1) := by
            rw [List.range_succ_eq_map, List.map_cons, List.map_map]
            refine congrArg₂ _ (by norm_num [DAY_INCREASES]) ?_
            refine List.map_congr_left ?_
            intro i _
            simp only [Function.comp]
            congr 1
            omega
    · have ih0 := ih 0 (by omega)
      rw [List.drop_zero] at ih0
      calc takeCycleAux (m + 1) (DAY_INCREASES.drop 2) DAY_INCREASES
          = (11/10 : ℚ) :: takeCycleAux m [] DAY_INCREASES := rfl
        _ = (11/10 : ℚ) :: takeCycleAux m DAY_INCREASES DAY_INCREASES := by
            rw [takeCycleAux_empty]
        _ = (11/10 : ℚ) :: (List.range m).map (fun i => DAY_INCREASES.getD ((0 + i) % 3) 1) := by
            rw [ih0]
        _ = (List.range (m + 1)).map (fun i => DAY_INCREASES.getD ((2 + i) % 3) 1) := by
            rw [List.range_succ_eq_map, List.map_cons, List.map_map]
            refine congrArg₂ _ (by norm_num [DAY_INCREASES]) ?_
            refine List.map_congr_left ?_
            intro i _
            simp only [Function.comp]
            congr 1
            omega

/-- The cyclic product computed by `get_total_increase_after_days` is the
product of the first `n` entries of the infinitely repeated rate sequence. -/
theorem gtiad_eq (n : ℕ) :
    get_total_increase_after_days n
      = ((List.range n).map (fun d => DAY_INCREASES.getD (d % 3) 1)).prod := by
  unfold get_total_increase_after_days
  have h := takeCycleAux_spec n 0 (by omega)
  rw [List.drop_zero] at h
  rw [h]
  congr 1
  refine List.map_congr_left ?_
  intro i _
  congr 1
  omega

theorem rate_bounds (d : ℕ) :
    0 < DAY_INCREASES.getD (d % 3) 1 ∧ 1 ≤ DAY_INCREASES.getD (d % 3) 1 := by
  have h : d % 3 = 0 ∨ d % 3 = 1 ∨ d % 3 = 2 := by omega
  rcases h with h | h | h <;> rw [h] <;> norm_num [DAY_INCREASES]

theorem gtiad_succ (n : ℕ) :
    get_total_increase_after_days (n + 1)
      = get_total_increase_after_days n * DAY_INCREASES.getD (n % 3) 1 := by
  rw [gtiad_eq, gtiad_eq, List.range_succ, List.map_append, List.prod_append]
  simp

theorem gtiad_pos (n : ℕ) : 0 < get_total_increase_after_days n := by
  induction n with
  | zero => norm_num [gtiad_eq]
  | succ m ih => rw [gtiad_succ]; exact mul_pos ih (rate_bounds m).1

theorem gtiad_mono : Monotone get_total_increase_after_days := by
  apply monotone_nat_of_le_succ
  intro n
  rw [gtiad_succ]
  exact le_mul_of_one_le_right (le_of_lt (gtiad_pos n)) (rate_bounds n).2

theorem est_weeks_of_le_one {r : ℚ} (h : r ≤ 1) : est_weeks r = 0 := by
  unfold est_weeks
  have h3 : 3 * (⌈r⌉).toNat + 3 = (3 * (⌈r⌉).toNat + 2) + 1 := by omega
  rw [h3]
  simp [estWeeksAux, h]

theorem DAYS_PER_WEEK_eq : DAYS_PER_WEEK = 3 := rfl

theorem progression_day_sum (starting_total : ℤ) (d : ℕ) :
    (progression_day starting_total d).sum
      = pyRound (get_total_increase_after_days d * (starting_total : ℚ)) := by
  have h : d % DAYS_PER_WEEK = 0 ∨ d % DAYS_PER_WEEK = 1 ∨ d % DAYS_PER_WEEK = 2 := by
    rw [DAYS_PER_WEEK_eq]; omega
  have h5 : (0 : ℤ) < N_SETS := by norm_num [N_SETS]
  rcases h with h | h | h <;>
    rw [progression_day, h] <;>
    simp only [DAY_SCHEDULES, List.getD_cons_zero, List.getD_cons_succ] <;>
    [rw [day1_schedule]; rw [day2_schedule]; rw [day3_schedule]] <;>
    exact schedule_by_shape_sum _ _ _ h5

theorem WEEKLY_INCREASE_eq : WEEKLY_INCREASE = 13673/10000 := by
  norm_num [WEEKLY_INCREASE, DAY_INCREASES]

/-- With enough fuel, `estWeeksAux` returns the least `k` with
`r ≤ WEEKLY_INCREASE ^ k` — the exact value of
`ceil(log r / log WEEKLY_INCREASE)` for `r > 1`. -/
theorem estWeeksAux_eq : ∀ (k fuel : ℕ) (r : ℚ), k ≤ fuel →
    r ≤ WEEKLY_INCREASE ^ k → (∀ j < k, WEEKLY_INCREASE ^ j < r) →
    estWeeksAux fuel r = k := by
  intro k
  induction k with
  | zero =>
    intro fuel r _ hup _
    rw [pow_zero] at hup
    cases fuel with
    | zero => rfl
    | succ m => simp only [estWeeksAux, if_pos hup]
  | succ j ih =>
    intro fuel r hk hup hlow
    have h1 : ¬ r ≤ 1 := by
      have := hlow 0 (by omega)
      rw [pow_zero] at this
      linarith
    cases fuel with
    | zero => omega
    | succ m =>
      simp only [estWeeksAux, if_neg h1]
      have hW : (0 : ℚ) < WEEKLY_INCREASE := by rw [WEEKLY_INCREASE_eq]; norm_num
      have hup' : r / WEEKLY_INCREASE ≤ WEEKLY_INCREASE ^ j := by
        rw [div_le_iff₀ hW, ← pow_succ]
        exact hup
      have hlow' : ∀ i < j, WEEKLY_INCREASE ^ i < r / WEEKLY_INCREASE := by
        intro i hi
        rw [lt_div_iff₀ hW, ← pow_succ]
        exact hlow (i + 1) (by omega)
      rw [ih m (r / WEEKLY_INCREASE) (by omega) hup' hlow']

theorem est_weeks_ten_thirds : est_weeks (10/3 : ℚ) = 4 := by
  unfold est_weeks
  apply estWeeksAux_eq
  · have hc : (⌈(10/3 : ℚ)⌉ : ℤ) = 4 := by
      rw [Int.ceil_eq_iff]
      norm_num
    rw [hc]
    omega
  · rw [WEEKLY_INCREASE_eq]; norm_num
  · intro j hj
    interval_cases j <;> rw [WEEKLY_INCREASE_eq] <;> norm_num

theorem gtiad_zero : get_total_increase_after_days 0 = 1 := by
  rw [gtiad_eq]; rfl

theorem gtiad_one : get_total_increase_after_days 1 = 113/100 := by
  rw [show (1:ℕ) = 0 + 1 from rfl, gtiad_succ, gtiad_zero]
  norm_num [DAY_INCREASES]

theorem gtiad_two : get_total_increase_after_days 2 = 1243/1000 := by
  rw [show (2:ℕ) = 1 + 1 from rfl, gtiad_succ, gtiad_one]
  norm_num [DAY_INCREASES]

theorem gtiad_three : get_total_increase_after_days 3 = 13673/10000 := by
  rw [show (3:ℕ) = 2 + 1 from rfl, gtiad_succ, gtiad_two]
  norm_num [DAY_INCREASES]

theorem gtiad_four : get_total_increase_after_days 4 = 1545049/1000000 := by
  rw [show (4:ℕ) = 3 + 1 from rfl, gtiad_succ, gtiad_three]
  norm_num [DAY_INCREASES]

theorem gtiad_five : get_total_increase_after_days 5 = 16995539/10000000 := by
  rw [show (5:ℕ) = 4 + 1 from rfl, gtiad_succ, gtiad_four]
  norm_num [DAY_INCREASES]

theorem gtiad_six : get_total_increase_after_days 6 = 186950929/100000000 := by
  rw [show (6:ℕ) = 5 + 1 from rfl, gtiad_succ, gtiad_five]
  norm_num [DAY_INCREASES]

theorem sched_mid_three : schedule_by_shape peak_in_middle_function 5 3 = [1, 1, 1, 1, -1] := by
  rw [schedule_eq_of_ne_one _ _ _ (by norm_num), shape_sets_eq]
  rw [show List.range ((5:ℤ).toNat) = [0, 1, 2, 3, 4] from rfl]
  norm_num [shape_entry, peak_in_middle_function, pyRound]
  decide

theorem sched_ptf_three : schedule_by_shape peak_toward_front_function 5 3 = [1, 1, 1, 1, -1] := by
  rw [schedule_eq_of_ne_one _ _ _ (by norm_num), shape_sets_eq]
  rw [show List.range ((5:ℤ).toNat) = [0, 1, 2, 3, 4] from rfl]
  norm_num [shape_entry, peak_toward_front_function, pyRound]
  decide

theorem sched_load_four : schedule_by_shape front_load_function 5 4 = [1, 1, 1, 1, 0] := by
  rw [schedule_eq_of_ne_one _ _ _ (by norm_num), shape_sets_eq]
  rw [show List.range ((5:ℤ).toNat) = [0, 1, 2, 3, 4] from rfl]
  norm_num [shape_entry, front_load_function, pyRound]
  decide

theorem sched_mid_four : schedule_by_shape peak_in_middle_function 5 4 = [1, 1, 1, 1, 0] := by
  rw [schedule_eq_of_ne_one _ _ _ (by norm_num), shape_sets_eq]
  rw [show List.range ((5:ℤ).toNat) = [0, 1, 2, 3, 4] from rfl]
  norm_num [shape_entry, peak_in_middle_function, pyRound]
  decide

theorem sched_ptf_five : schedule_by_shape peak_toward_front_function 5 5 = [1, 1, 1, 1, 1] := by
  rw [schedule_eq_of_ne_one _ _ _ (by norm_num), shape_sets_eq]
  rw [show List.range ((5:ℤ).toNat) = [0, 1, 2, 3, 4] from rfl]
  norm_num [shape_entry, peak_toward_front_function, pyRound]
  decide

theorem sched_load_five : schedule_by_shape front_load_function 5 5 = [1, 1, 1, 1, 1] := by
  rw [schedule_eq_of_ne_one _ _ _ (by norm_num), shape_sets_eq]
  rw [show List.range ((5:ℤ).toNat) = [0, 1, 2, 3, 4] from rfl]
  norm_num [shape_entry, front_load_function, pyRound]
  decide

theorem sched_mid_six : schedule_by_shape peak_in_middle_function 5 6 = [2, 1, 1, 1, 1] := by
  rw [schedule_eq_of_ne_one _ _ _ (by norm_num), shape_sets_eq]
  rw [show List.range ((5:ℤ).toNat) = [0, 1, 2, 3, 4] from rfl]
  norm_num [shape_entry, peak_in_middle_function, pyRound]
  decide

theorem sched_mid_98 : schedule_by_shape peak_in_middle_function 5 98 = [18, 20, 22, 20, 18] := by
  rw [schedule_eq_of_ne_one _ _ _ (by norm_num), shape_sets_eq]
  rw [show List.range ((5:ℤ).toNat) = [0, 1, 2, 3, 4] from rfl]
  norm_num [shape_entry, peak_in_middle_function, pyRound]
  decide

theorem sched_ptf_102 : schedule_by_shape peak_toward_front_function 5 102 = [20, 22, 24, 20, 16] := by
  rw [schedule_eq_of_ne_one _ _ _ (by norm_num), shape_sets_eq]
  rw [show List.range ((5:ℤ).toNat) = [0, 1, 2, 3, 4] from rfl]
  norm_num [shape_entry, peak_toward_front_function, pyRound]
  decide

theorem sched_load_100 : schedule_by_shape front_load_function 5 100 = [28, 22, 20, 18, 12] := by
  rw [schedule_eq_of_ne_one _ _ _ (by norm_num), shape_sets_eq]
  rw [show List.range ((5:ℤ).toNat) = [0, 1, 2, 3, 4] from rfl]
  norm_num [shape_entry, front_load_function, pyRound]
  decide

theorem pd_zero : progression_day 3 0 = [1, 1, 1, 1, -1] := by
  rw [progression_day]
  have ht : pyRound (get_total_increase_after_days 0 * ((3 : ℤ) : ℚ)) = 3 := by
    rw [gtiad_zero]; norm_num [pyRound]
  rw [ht, DAYS_PER_WEEK_eq, show N_SETS = (5 : ℤ) from rfl,
    show (0 % 3 : ℕ) = 0 from rfl]
  simp only [DAY_SCHEDULES, List.getD_cons_zero, day1_schedule]
  exact sched_mid_three

theorem pd_one : progression_day 3 1 = [1, 1, 1, 1, -1] := by
  rw [progression_day]
  have ht : pyRound (get_total_increase_after_days 1 * ((3 : ℤ) : ℚ)) = 3 := by
    rw [gtiad_one]; norm_num [pyRound]
  rw [ht, DAYS_PER_WEEK_eq, show N_SETS = (5 : ℤ) from rfl,
    show (1 % 3 : ℕ) = 1 from rfl]
  simp only [DAY_SCHEDULES, List.getD_cons_zero, List.getD_cons_succ, day2_schedule]
  exact sched_ptf_three

theorem pd_two : progression_day 3 2 = [1, 1, 1, 1, 0] := by
  rw [progression_day]
  have ht : pyRound (get_total_increase_after_days 2 * ((3 : ℤ) : ℚ)) = 4 := by
    rw [gtiad_two]; norm_num [pyRound]
  rw [ht, DAYS_PER_WEEK_eq, show N_SETS = (5 : ℤ) from rfl,
    show (2 % 3 : ℕ) = 2 from rfl]
  simp only [DAY_SCHEDULES, List.getD_cons_zero, List.getD_cons_succ, day3_schedule]
  exact sched_load_four

theorem pd_three : progression_day 3 3 = [1, 1, 1, 1, 0] := by
  rw [progression_day]
  have ht : pyRound (get_total_increase_after_days 3 * ((3 : ℤ) : ℚ)) = 4 := by
    rw [gtiad_three]; norm_num [pyRound]
  rw [ht, DAYS_PER_WEEK_eq, show N_SETS = (5 : ℤ) from rfl,
    show (3 % 3 : ℕ) = 0 from rfl]
  simp only [DAY_SCHEDULES, List.getD_cons_zero, day1_schedule]
  exact sched_mid_four

theorem pd_four : progression_day 3 4 = [1, 1, 1, 1, 1] := by
  rw [progression_day]
  have ht : pyRound (get_total_increase_after_days 4 * ((3 : ℤ) : ℚ)) = 5 := by
    rw [gtiad_four]; norm_num [pyRound]
  rw [ht, DAYS_PER_WEEK_eq, show N_SETS = (5 : ℤ) from rfl,
    show (4 % 3 : ℕ) = 1 from rfl]
  simp only [DAY_SCHEDULES, List.getD_cons_zero, List.getD_cons_succ, day2_schedule]
  exact sched_ptf_five

theorem pd_five : progression_day 3 5 = [1, 1, 1, 1, 1] := by
  rw [progression_day]
  have ht : pyRound (get_total_increase_after_days 5 * ((3 : ℤ) : ℚ)) = 5 := by
    rw [gtiad_five]; norm_num [pyRound]
  rw [ht, DAYS_PER_WEEK_eq, show N_SETS = (5 : ℤ) from rfl,
    show (5 % 3 : ℕ) = 2 from rfl]
  simp only [DAY_SCHEDULES, List.getD_cons_zero, List.getD_cons_succ, day3_schedule]
  exact sched_load_five

theorem pd_six : progression_day 3 6 = [2, 1, 1, 1, 1] := by
  rw [progression_day]
  have ht : pyRound (get_total_increase_after_days 6 * ((3 : ℤ) : ℚ)) = 6 := by
    rw [gtiad_six]; norm_num [pyRound]
  rw [ht, DAYS_PER_WEEK_eq, show N_SETS = (5 : ℤ) from rfl,
    show (6 % 3 : ℕ) = 0 from rfl]
  simp only [DAY_SCHEDULES, List.getD_cons_zero, day1_schedule]
  exact sched_mid_six

theorem progression_one_two :
    get_progression 1 2
      = [[1, 1, 1, 1, -1], [1, 1, 1, 1, -1], [1, 1, 1, 1, 0], [1, 1, 1, 1, 0],
         [1, 1, 1, 1, 1], [1, 1, 1, 1, 1], [2]] := by
  simp only [get_progression]
  have h1 : RATIO_OF_MAX_FOR_N_SETS * (1 : ℚ) = 3/5 := by
    norm_num [RATIO_OF_MAX_FOR_N_SETS]
  rw [h1]
  have h2 : ((2 : ℤ) : ℚ) / (3/5 : ℚ) = 10/3 := by norm_num
  rw [h2]
  have h3 : pyRound ((3/5 : ℚ) * ((N_SETS : ℤ) : ℚ)) = 3 := by
    rw [show N_SETS = (5 : ℤ) from rfl]
    norm_num [pyRound]
  rw [h3]
  rw [est_weeks_ten_thirds, DAYS_PER_WEEK_eq]
  rw [show List.range (3 * 4) = [0, 1, 2, 3, 4, 5, 6, 7, 8, 9, 10, 11] from rfl]
  simp only [List.map_cons, List.map_nil]
  rw [pd_zero, pd_one, pd_two, pd_three, pd_four, pd_five, pd_six]
  have c1 : (decide (listMax [1, 1, 1, 1, -1] < 2)) = true := by decide
  have c3 : (decide (listMax [1, 1, 1, 1, 0] < 2)) = true := by decide
  have c5 : (decide (listMax [1, 1, 1, 1, 1] < 2)) = true := by decide
  have c6 : (decide (listMax [2, 1, 1, 1, 1] < 2)) = false := by decide
  simp only [List.takeWhile_cons, c1, c3, c5, c6, if_true, if_false, Bool.false_eq_true,
    if_neg, ite_true, ite_false]
  rfl

theorem mid_mem : peak_in_middle_function ∈ DISTRO_SHAPE_FUNCTIONS := by
  unfold DISTRO_SHAPE_FUNCTIONS
  exact List.mem_cons_self _ _

theorem load_mem : front_load_function ∈ DISTRO_SHAPE_FUNCTIONS := by
  unfold DISTRO_SHAPE_FUNCTIONS
  exact List.mem_cons_of_mem _ (List.mem_cons_of_mem _ (List.mem_cons_self _ _))

theorem gtiad_seven : get_total_increase_after_days 7 = 21125454977/10000000000 := by
  rw [show (7:ℕ) = 6 + 1 from rfl, gtiad_succ, gtiad_six]
  norm_num [DAY_INCREASES]

theorem gtiad_eight : get_total_increase_after_days 8 = 232380004747/100000000000 := by
  rw [show (8:ℕ) = 7 + 1 from rfl, gtiad_succ, gtiad_seven]
  norm_num [DAY_INCREASES]

/-- Claim C1: for each of the three built-in shape functions, every integer
`num_sets > 0` and every integer `total ≥ 0`, `schedule_by_shape` returns a
list of exactly `num_sets` integers whose sum is exactly `total`; for
`num_sets = 1` it returns `[total]`. -/
theorem claim1 : ∀ shape ∈ DISTRO_SHAPE_FUNCTIONS, ∀ num_set total : ℤ,
    0 < num_set → 0 ≤ total →
    (schedule_by_shape shape num_set total).length = num_set.toNat
    ∧ (schedule_by_shape shape num_set total).sum = total
    ∧ (num_set = 1 → schedule_by_shape shape num_set total = [total]) := by
  intro shape _ num_set total hn _
  refine ⟨schedule_by_shape_length _ _ _ hn, schedule_by_shape_sum _ _ _ hn, ?_⟩
  intro h1
  rw [h1, schedule_by_shape_one]

/-- Witness for C1 at `(peak_in_middle_function, 5, 98)`. -/
theorem claim1_witness :
    peak_in_middle_function ∈ DISTRO_SHAPE_FUNCTIONS ∧ (0:ℤ) < 5 ∧ (0:ℤ) ≤ 98
    ∧ ((schedule_by_shape peak_in_middle_function 5 98).length = (5:ℤ).toNat
      ∧ (schedule_by_shape peak_in_middle_function 5 98).sum = 98
      ∧ ((5:ℤ) = 1 → schedule_by_shape peak_in_middle_function 5 98 = [98])) :=
  ⟨mid_mem, by norm_num, by norm_num,
    claim1 peak_in_middle_function mid_mem 5 98 (by norm_num) (by norm_num)⟩

/-- Claim C2 counterexample: for `peak_in_middle_function`, `num_sets = 5` and
`total = 3` (valid inputs), the returned schedule is `[1, 1, 1, 1, -1]`: the
over-allocation correction drives the last entry negative, so the claim that
every entry is non-negative is false. -/
theorem claim2_counterexample :
    peak_in_middle_function ∈ DISTRO_SHAPE_FUNCTIONS ∧ (0:ℤ) < 5 ∧ (0:ℤ) ≤ 3
    ∧ schedule_by_shape peak_in_middle_function 5 3 = [1, 1, 1, 1, -1]
    ∧ ¬ (∀ x ∈ schedule_by_shape peak_in_middle_function 5 3, 0 ≤ x) := by
  refine ⟨mid_mem, by norm_num, by norm_num, sched_mid_three, ?_⟩
  rw [sched_mid_three]
  decide

/-- Claim C2 as amended: for each built-in shape and valid `(num_sets, total)`,
every entry of the result other than the last is non-negative, and when the
rounding error is non-negative (the under-allocation branch) every entry,
including the last, is non-negative. -/
theorem claim2_amended : ∀ shape ∈ DISTRO_SHAPE_FUNCTIONS, ∀ num_set total : ℤ,
    0 < num_set → 0 ≤ total →
    (∀ i, i + 1 < num_set.toNat → 0 ≤ (schedule_by_shape shape num_set total).getD i 0)
    ∧ (0 ≤ total - (shape_sets shape num_set total).sum →
        ∀ x ∈ schedule_by_shape shape num_set total, 0 ≤ x) := by
  intro shape hs num_set total hn ht
  by_cases h1 : num_set = 1
  · subst h1
    constructor
    · intro i hi
      omega
    · intro _ x hx
      rw [schedule_by_shape_one] at hx
      simp only [List.mem_cons, List.not_mem_nil, or_false] at hx
      omega
  · have h2 : 2 ≤ num_set := by omega
    have hmain := schedule_getD_nonneg hs num_set total h2 ht
    refine ⟨hmain.1, ?_⟩
    intro herr x hx
    obtain ⟨i, hilt, hieq⟩ := List.mem_iff_getElem.mp hx
    have hlen : (schedule_by_shape shape num_set total).length = num_set.toNat :=
      schedule_by_shape_length _ _ _ hn
    have hnn := hmain.2 herr i (by omega)
    rw [getD_eq_getElem' hilt, hieq] at hnn
    exact hnn

/-- Witness for the amended C2 at `(peak_in_middle_function, 5, 98)`. -/
theorem claim2_amended_witness :
    peak_in_middle_function ∈ DISTRO_SHAPE_FUNCTIONS ∧ (0:ℤ) < 5 ∧ (0:ℤ) ≤ 98
    ∧ ((∀ i, i + 1 < (5:ℤ).toNat →
          0 ≤ (schedule_by_shape peak_in_middle_function 5 98).getD i 0)
      ∧ (0 ≤ 98 - (shape_sets peak_in_middle_function 5 98).sum →
          ∀ x ∈ schedule_by_shape peak_in_middle_function 5 98, 0 ≤ x)) :=
  ⟨mid_mem, by norm_num, by norm_num,
    claim2_amended peak_in_middle_function mid_mem 5 98 (by norm_num) (by norm_num)⟩

/-- Claim C7: the three exact literal cases of the spec hold:
`distribute(peak_in_middle, 5, 98) = [18, 20, 22, 20, 18]`,
`distribute(peak_toward_front, 5, 102) = [20, 22, 24, 20, 16]`,
`distribute(front_load, 5, 100) = [28, 22, 20, 18, 12]`. -/
theorem claim7 :
    schedule_by_shape peak_in_middle_function 5 98 = [18, 20, 22, 20, 18]
    ∧ schedule_by_shape peak_toward_front_function 5 102 = [20, 22, 24, 20, 16]
    ∧ schedule_by_shape front_load_function 5 100 = [28, 22, 20, 18, 12] :=
  ⟨sched_mid_98, sched_ptf_102, sched_load_100⟩

/-- Claim C8: for each built-in shape and all valid `(num_sets, total)`, the
minimum of the returned schedule equals its last entry — the final set is
never harder than any other set. -/
theorem claim8 : ∀ shape ∈ DISTRO_SHAPE_FUNCTIONS, ∀ num_set total : ℤ,
    0 < num_set → 0 ≤ total →
    listMin (schedule_by_shape shape num_set total)
      = (schedule_by_shape shape num_set total).getLastD 0 := by
  intro shape hs num_set total hn ht
  by_cases h1 : num_set = 1
  · subst h1
    rw [schedule_by_shape_one]
    rfl
  · have h2 : 2 ≤ num_set := by omega
    have hlen : (schedule_by_shape shape num_set total).length = num_set.toNat :=
      schedule_by_shape_length _ _ _ hn
    have hne : schedule_by_shape shape num_set total ≠ [] :=
      List.ne_nil_of_length_pos (by omega)
    have hall : ∀ b ∈ schedule_by_shape shape num_set total,
        (schedule_by_shape shape num_set total).getD
          ((schedule_by_shape shape num_set total).length - 1) 0 ≤ b := by
      intro b hb
      obtain ⟨j, hj, hjeq⟩ := List.mem_iff_getElem.mp hb
      have hle := schedule_last_le hs num_set total h2 ht j hj
      rw [getD_eq_getElem' hj, hjeq] at hle
      exact hle
    have hmem : (schedule_by_shape shape num_set total).getD
        ((schedule_by_shape shape num_set total).length - 1) 0
          ∈ schedule_by_shape shape num_set total := getD_mem (by omega)
    rw [getLastD_eq_getD]
    exact listMin_eq_of hmem hall

/-- Witness for C8 at `(front_load_function, 5, 100)`. -/
theorem claim8_witness :
    front_load_function ∈ DISTRO_SHAPE_FUNCTIONS ∧ (0:ℤ) < 5 ∧ (0:ℤ) ≤ 100
    ∧ listMin (schedule_by_shape front_load_function 5 100)
        = (schedule_by_shape front_load_function 5 100).getLastD 0 :=
  ⟨load_mem, by norm_num, by norm_num,
    claim8 front_load_function load_mem 5 100 (by norm_num) (by norm_num)⟩

/-- Claim C3 counterexample: for the accepted input `starting_max = 1`,
`goal = 2`, the training-day sums are `[3, 3, 4, 4, 5, 5]`, which is not
strictly increasing (the first two days have equal sums), so the claim that
consecutive training days strictly increase is false. -/
theorem claim3_counterexample :
    (get_progression 1 2).dropLast.map (fun day => day.sum) = [3, 3, 4, 4, 5, 5]
    ∧ ¬ ((get_progression 1 2).dropLast.map (fun day => day.sum)).Chain'
        (fun a b : ℤ => a < b) := by
  rw [progression_one_two]
  have heval : ([[1, 1, 1, 1, -1], [1, 1, 1, 1, -1], [1, 1, 1, 1, 0], [1, 1, 1, 1, 0],
      [1, 1, 1, 1, 1], [1, 1, 1, 1, 1], [2]] : List (List ℤ)).dropLast.map
        (fun day => day.sum) = [3, 3, 4, 4, 5, 5] := by decide
  rw [heval]
  refine ⟨rfl, ?_⟩
  intro hchain
  rw [List.chain'_cons] at hchain
  exact absurd hchain.1 (by decide)

/-- Claim C3 as amended: for every `starting_max ≥ 0` and every goal, the
per-day sums of the training days of `get_progression` are non-decreasing
(strict increase fails in general, see the counterexample). -/
theorem claim3_amended (starting_max : ℚ) (single_set_goal : ℤ) (h : 0 ≤ starting_max) :
    ((get_progression starting_max single_set_goal).dropLast.map
        (fun day => day.sum)).Chain' (fun a b : ℤ => a ≤ b) := by
  simp only [get_progression]
  rw [List.dropLast_concat]
  have hT0nn : (0:ℤ) ≤ pyRound (RATIO_OF_MAX_FOR_N_SETS * starting_max * ((N_SETS : ℤ) : ℚ)) := by
    apply pyRound_nonneg
    have h1 : (0:ℚ) ≤ RATIO_OF_MAX_FOR_N_SETS := by norm_num [RATIO_OF_MAX_FOR_N_SETS]
    have h2 : (0:ℚ) ≤ ((N_SETS : ℤ) : ℚ) := by norm_num [N_SETS]
    exact mul_nonneg (mul_nonneg h1 h) h2
  apply List.Chain'.prefix ?_ (List.IsPrefix.map _ ( List.takeWhile_prefix _))
  rw [List.map_map]
  have hmap : ∀ K : ℕ, (List.range K).map
        ((fun day : List ℤ => day.sum) ∘
          progression_day (pyRound (RATIO_OF_MAX_FOR_N_SETS * starting_max * ((N_SETS : ℤ) : ℚ))))
      = (List.range K).map
        (fun d => pyRound (get_total_increase_after_days d *
          ((pyRound (RATIO_OF_MAX_FOR_N_SETS * starting_max * ((N_SETS : ℤ) : ℚ)) : ℤ) : ℚ))) := by
    intro K
    refine List.map_congr_left ?_
    intro d _
    exact progression_day_sum _ d
  rw [hmap]
  rw [List.chain'_map]
  rw [List.chain'_iff_get]
  intro i hi
  simp only [List.get_eq_getElem, List.getElem_range]
  apply pyRound_mono
  apply mul_le_mul_of_nonneg_right (gtiad_mono (by omega))
  exact_mod_cast hT0nn

/-- Witness for the amended C3 at `(starting_max, goal) = (1, 2)`. -/
theorem claim3_amended_witness :
    (0:ℚ) ≤ 1
    ∧ ((get_progression 1 2).dropLast.map (fun day => day.sum)).Chain'
        (fun a b : ℤ => a ≤ b) :=
  ⟨by norm_num, claim3_amended 1 2 (by norm_num)⟩

theorem mem_takeWhile_bool {α : Type} {p : α → Bool} {l : List α} {x : α}
    (h : x ∈ l.takeWhile p) : p x = true := by
  induction l with
  | nil => simp [List.takeWhile] at h
  | cons a as ih =>
    rw [List.takeWhile_cons] at h
    by_cases hp : p a = true
    · rw [if_pos hp] at h
      rcases List.mem_cons.mp h with rfl | h2
      · exact hp
      · exact ih h2
    · rw [if_neg hp] at h
      simp at h

/-- Claim C4: for every `starting_max` and `goal`, the last element of the
returned progression is exactly `[goal]`, and every training day before it
has maximum set count strictly below `goal` (the first day whose maximum
reaches the goal is excluded by `takewhile`). -/
theorem claim4 (starting_max : ℚ) (single_set_goal : ℤ) :
    (get_progression starting_max single_set_goal).getLast? = some [single_set_goal]
    ∧ ∀ day ∈ (get_progression starting_max single_set_goal).dropLast,
        listMax day < single_set_goal := by
  constructor
  · simp only [get_progression]
    exact List.getLast?_concat _
  · simp only [get_progression]
    rw [List.dropLast_concat]
    intro day hday
    have hb := mem_takeWhile_bool hday
    exact of_decide_eq_true hb

/-- Witness for C4 at `(starting_max, goal) = (1, 2)`. -/
theorem claim4_witness :
    (get_progression 1 2).getLast? = some [2]
    ∧ ∀ day ∈ (get_progression 1 2).dropLast, listMax day < 2 :=
  claim4 1 2

/-- Claim C5: `schedule_by_shape` (checked) raises exactly when
`num_set ≤ 0`, `total < 0`, or one of the inputs is not an integer
(denominator ≠ 1 in the rational model); for all other inputs it returns
normally with a result list, so no partial result is produced on error. -/
theorem claim5 (shape : ℚ → ℚ) (num_set total : ℚ) :
    ((∃ e, schedule_by_shape_checked shape num_set total = Except.error e)
      ↔ (num_set ≤ 0 ∨ total < 0 ∨ num_set.den ≠ 1 ∨ total.den ≠ 1))
    ∧ (¬ (num_set ≤ 0 ∨ total < 0 ∨ num_set.den ≠ 1 ∨ total.den ≠ 1) →
        ∃ l, schedule_by_shape_checked shape num_set total = Except.ok l) := by
  unfold schedule_by_shape_checked
  constructor
  · constructor
    · rintro ⟨e, he⟩
      by_contra hcon
      push_neg at hcon
      obtain ⟨hn, ht, hd1, hd2⟩ := hcon
      rw [if_neg (by push_neg; exact ⟨hn, ht⟩), if_neg (by push_neg; exact ⟨hd1, hd2⟩)] at he
      exact absurd he (by simp)
    · intro hcond
      by_cases hA : num_set ≤ 0 ∨ total < 0
      · rw [if_pos hA]
        exact ⟨_, rfl⟩
      · rw [if_neg hA]
        have hB : num_set.den ≠ 1 ∨ total.den ≠ 1 := by tauto
        rw [if_pos hB]
        exact ⟨_, rfl⟩
  · intro hcon
    push_neg at hcon
    obtain ⟨hn, ht, hd1, hd2⟩ := hcon
    rw [if_neg (by push_neg; exact ⟨hn, ht⟩), if_neg (by push_neg; exact ⟨hd1, hd2⟩)]
    exact ⟨_, rfl⟩

/-- Witness for C5: `(num_set, total) = (-1, 10)` is rejected with an error
and `(5, 98)` is accepted with a result. -/
theorem claim5_witness :
    ((-1 : ℚ) ≤ 0 ∨ (10 : ℚ) < 0 ∨ ((-1 : ℚ)).den ≠ 1 ∨ ((10 : ℚ)).den ≠ 1)
    ∧ (∃ e, schedule_by_shape_checked peak_in_middle_function (-1) 10 = Except.error e)
    ∧ (∃ l, schedule_by_shape_checked peak_in_middle_function 5 98 = Except.ok l) := by
  refine ⟨Or.inl (by norm_num), ?_, ?_⟩
  · exact (claim5 peak_in_middle_function (-1) 10).1.mpr (Or.inl (by norm_num))
  · apply (claim5 peak_in_middle_function 5 98).2
    push_neg
    refine ⟨by norm_num, by norm_num, rfl, rfl⟩

/-- Claim C9: `get_total_increase_after_days n` equals the product of the
first `n` entries of the infinitely repeated rate sequence (entry `d` is
`DAY_INCREASES[d mod DAYS_PER_WEEK]`); in particular after 4 days it is
`r0*r1*r2*r0` and after 8 days `r0*r1*r2*r0*r1*r2*r0*r1` with
`[r0, r1, r2] = [1.13, 1.10, 1.10]`. -/
theorem claim9 :
    (∀ n : ℕ, get_total_increase_after_days n
        = ((List.range n).map (fun d => DAY_INCREASES.getD (d % DAYS_PER_WEEK) 1)).prod)
    ∧ get_total_increase_after_days 4
        = (113/100) * (11/10) * (11/10) * (113/100)
    ∧ get_total_increase_after_days 8
        = (113/100) * (11/10) * (11/10) * (113/100) * (11/10) * (11/10) * (113/100) * (11/10) := by
  refine ⟨?_, ?_, ?_⟩
  · intro n
    rw [gtiad_eq, DAYS_PER_WEEK_eq]
  · rw [gtiad_four]
    norm_num
  · rw [gtiad_eight]
    norm_num

/-- Claim C6 counterexample: for `starting_max = 10`, `goal = 5` the required
increase `5/6` is positive but at most 1 — degenerate per the claim — yet
`get_progression` raises no error and silently returns `[[5]]`. -/
theorem claim6_counterexample :
    (0 : ℚ) < ((5:ℤ) : ℚ) / (RATIO_OF_MAX_FOR_N_SETS * 10)
    ∧ ((5:ℤ) : ℚ) / (RATIO_OF_MAX_FOR_N_SETS * 10) ≤ 1
    ∧ get_progression_checked 10 5 = Except.ok [[5]] := by
  refine ⟨by norm_num [RATIO_OF_MAX_FOR_N_SETS], by norm_num [RATIO_OF_MAX_FOR_N_SETS], ?_⟩
  simp only [get_progression_checked]
  rw [if_neg (by norm_num [RATIO_OF_MAX_FOR_N_SETS] :
    ¬(RATIO_OF_MAX_FOR_N_SETS * (10:ℚ) = 0))]
  rw [if_neg (by norm_num [RATIO_OF_MAX_FOR_N_SETS] :
    ¬(((5:ℤ) : ℚ) / (RATIO_OF_MAX_FOR_N_SETS * 10) ≤ 0))]
  rw [est_weeks_of_le_one (by norm_num [RATIO_OF_MAX_FOR_N_SETS])]
  rw [Nat.mul_zero, List.range_zero]
  rfl

/-- Claim C6 as amended: `get_progression` raises an error when the log
argument is non-positive (`required_increase ≤ 0`, a `math.log` domain error)
or `starting_average = 0` (a `ZeroDivisionError`); but when
`0 < required_increase ≤ 1` it raises nothing and returns `[[goal]]` with no
training days. -/
theorem claim6_amended (starting_max : ℚ) (single_set_goal : ℤ) :
    ((RATIO_OF_MAX_FOR_N_SETS * starting_max = 0
        ∨ (single_set_goal : ℚ) / (RATIO_OF_MAX_FOR_N_SETS * starting_max) ≤ 0) →
      ∃ e, get_progression_checked starting_max single_set_goal = Except.error e)
    ∧ (0 < (single_set_goal : ℚ) / (RATIO_OF_MAX_FOR_N_SETS * starting_max) →
        (single_set_goal : ℚ) / (RATIO_OF_MAX_FOR_N_SETS * starting_max) ≤ 1 →
        get_progression_checked starting_max single_set_goal
          = Except.ok [[single_set_goal]]) := by
  constructor
  · intro hdeg
    simp only [get_progression_checked]
    by_cases h0 : RATIO_OF_MAX_FOR_N_SETS * starting_max = 0
    · rw [if_pos h0]
      exact ⟨_, rfl⟩
    · rw [if_neg h0]
      have hR : (single_set_goal : ℚ) / (RATIO_OF_MAX_FOR_N_SETS * starting_max) ≤ 0 := by
        tauto
      rw [if_pos hR]
      exact ⟨_, rfl⟩
  · intro hpos hle
    have h0 : RATIO_OF_MAX_FOR_N_SETS * starting_max ≠ 0 := by
      intro hc
      rw [hc, div_zero] at hpos
      exact lt_irrefl _ hpos
    simp only [get_progression_checked]
    rw [if_neg h0, if_neg (not_le.mpr hpos), est_weeks_of_le_one hle]
    rw [Nat.mul_zero, List.range_zero]
    rfl

/-- Witness for the amended C6: `(0, 5)` errors (zero starting average) and
`(20, 6)` (required increase `1/2`) returns `[[6]]`. -/
theorem claim6_amended_witness :
    (RATIO_OF_MAX_FOR_N_SETS * (0:ℚ) = 0
      ∨ ((5:ℤ) : ℚ) / (RATIO_OF_MAX_FOR_N_SETS * 0) ≤ 0)
    ∧ (∃ e, get_progression_checked 0 5 = Except.error e)
    ∧ (0 < ((6:ℤ) : ℚ) / (RATIO_OF_MAX_FOR_N_SETS * 20)
        ∧ ((6:ℤ) : ℚ) / (RATIO_OF_MAX_FOR_N_SETS * 20) ≤ 1
        ∧ get_progression_checked 20 6 = Except.ok [[6]]) := by
  refine ⟨Or.inl (by norm_num), ?_,
    by norm_num [RATIO_OF_MAX_FOR_N_SETS],
    by norm_num [RATIO_OF_MAX_FOR_N_SETS], ?_⟩
  · exact (claim6_amended 0 5).1 (Or.inl (by norm_num))
  · exact (claim6_amended 20 6).2 (by norm_num [RATIO_OF_MAX_FOR_N_SETS])
      (by norm_num [RATIO_OF_MAX_FOR_N_SETS])

/-- Claim C10: for accepted inputs (`starting_max > 0` and a positive log
argument) `get_progression` returns a finite list of at most
`DAYS_PER_WEEK * est_weeks` training days followed by the single goal day
(so length at most `DAYS_PER_WEEK * est_weeks + 1`, ending in `[goal]`):
the candidate-day range is bounded even though the growth sequence is
conceptually infinite. -/
theorem claim10 (starting_max : ℚ) (single_set_goal : ℤ)
    (h1 : 0 < starting_max)
    (h2 : 0 < (single_set_goal : ℚ) / (RATIO_OF_MAX_FOR_N_SETS * starting_max)) :
    (get_progression starting_max single_set_goal).length
        ≤ DAYS_PER_WEEK *
            est_weeks ((single_set_goal : ℚ) / (RATIO_OF_MAX_FOR_N_SETS * starting_max)) + 1
      ∧ (get_progression starting_max single_set_goal).getLast?
          = some [single_set_goal] := by
  constructor
  · simp only [get_progression]
    rw [List.length_append]
    have hle := List.IsPrefix.length_le ( List.takeWhile_prefix
      (fun day => decide (listMax day < single_set_goal))
      (l := (List.range (DAYS_PER_WEEK *
          est_weeks ((single_set_goal : ℚ) / (RATIO_OF_MAX_FOR_N_SETS * starting_max)))).map
        (progression_day
          (pyRound (RATIO_OF_MAX_FOR_N_SETS * starting_max * ((N_SETS : ℤ) : ℚ))))))
    rw [List.length_map, List.length_range] at hle
    simp only [List.length_cons, List.length_nil]
    omega
  · simp only [get_progression]
    exact List.getLast?_concat _

/-- Witness for C10 at `(starting_max, goal) = (1, 2)`. -/
theorem claim10_witness :
    (0:ℚ) < 1
    ∧ (0:ℚ) < ((2:ℤ) : ℚ) / (RATIO_OF_MAX_FOR_N_SETS * 1)
    ∧ ((get_progression 1 2).length
          ≤ DAYS_PER_WEEK * est_weeks (((2:ℤ) : ℚ) / (RATIO_OF_MAX_FOR_N_SETS * 1)) + 1
        ∧ (get_progression 1 2).getLast? = some [2]) :=
  ⟨by norm_num, by norm_num [RATIO_OF_MAX_FOR_N_SETS],
    claim10 1 2 (by norm_num) (by norm_num [RATIO_OF_MAX_FOR_N_SETS])⟩
